import Mathlib

/-!
# Verification of the jsonata-rs evaluator core

A shallow embedding of the two evaluators in this repository:

* `Pooled` — the evaluator of the `jsonata` crate
  (`jsonata/src/evaluator.rs`, `jsonata/src/functions.rs`), whose values
  carry per-array flags (SEQUENCE, SINGLETON, CONS, WRAPPED);
* `Legacy` — the evaluator of the root crate (`src/evaluator.rs`), whose
  `Value` is Undefined / Raw(JsonValue) / Array with `is_seq` and
  `keep_array` booleans.

Modelling conventions, shared by both embeddings:

* IEEE-754 doubles are modelled by rationals (`Rat`).  Every numeric
  literal appearing in the properties below is a small integer, on which
  the two number systems agree exactly; stored numbers are never NaN
  (an invariant stated by the spec), so the `is_nan` guards of the source
  never fire in the model.
* Rust `panic!` / `unreachable!` / out-of-bounds indexing is modelled by a
  distinguished `panic` outcome (an `Option` `none`, or a dedicated error
  constructor), kept separate from the error values the evaluator returns.
* The interpreter recursion is made total with a fuel parameter; running
  out of fuel is a distinguished `outOfFuel` outcome that the source (with
  its unbounded recursion) never produces.  Theorems quantify over fuel or
  use a concrete sufficient amount.
* The `value.rs` module of the `jsonata` crate is not part of the sources;
  the handful of `Value` methods the evaluator calls (`is_truthy`,
  structural `==`, `wrap_in_array`, `is_integer`, …) are modelled from the
  spec (§4.2, §4.4) and are marked `Modelled from the spec:` below.
-/

namespace Pooled

/-- `ArrayFlags` from the `jsonata` crate: independent bits carried by
every array value (spec §3.1). -/
structure ArrayFlags where
  sequence : Bool := false
  singleton : Bool := false
  cons : Bool := false
  wrapped : Bool := false
deriving DecidableEq, Repr

/-- `ArrayFlags::empty()`. -/
def ArrayFlags.empty : ArrayFlags := {}

/-- The `SEQUENCE` flag alone. -/
def ArrayFlags.seq : ArrayFlags := { sequence := true }

/-- The `CONS` flag alone. -/
def ArrayFlags.consOnly : ArrayFlags := { cons := true }

/-- `ValueKind` of the `jsonata` crate (spec §3.1), with the pool
flattened away: handles are modelled by the value trees they denote.
Lambdas and native functions are outside the embedded fragment (none of
the verified properties mention function values). -/
inductive PValue where
  | undefined
  | null
  | bool (b : Bool)
  | number (n : ℚ)
  | string (s : String)
  | array (elems : List PValue) (flags : ArrayFlags)
  | obj (entries : List (String × PValue))

namespace PValue

/-- `Value::is_undefined`. -/
def is_undefined : PValue → Bool
  | .undefined => true
  | _ => false

/-- `Value::is_array`. -/
def is_array : PValue → Bool
  | .array _ _ => true
  | _ => false

/-- `Value::is_string`. -/
def is_string : PValue → Bool
  | .string _ => true
  | _ => false

/-- `Value::is_number`. -/
def is_number : PValue → Bool
  | .number _ => true
  | _ => false

/-- Flags of an array value; non-arrays carry no flags. -/
def get_flags : PValue → ArrayFlags
  | .array _ f => f
  | _ => ArrayFlags.empty

/-- `Value::has_flags(SEQUENCE)`. -/
def hasSequence (v : PValue) : Bool := v.get_flags.sequence

/-- `Value::has_flags(SINGLETON)`. -/
def hasSingleton (v : PValue) : Bool := v.get_flags.singleton

/-- `Value::has_flags(CONS)`. -/
def hasCons (v : PValue) : Bool := v.get_flags.cons

/-- `Value::has_flags(WRAPPED)`. -/
def hasWrapped (v : PValue) : Bool := v.get_flags.wrapped

/-- `Value::add_flags(SINGLETON)`: a no-op on non-arrays (the evaluator
only calls it on arrays). -/
def addSingleton : PValue → PValue
  | .array elems f => .array elems { f with singleton := true }
  | v => v

/-- `Value::is_empty` — the evaluator calls it on arrays only. -/
def is_empty : PValue → Bool
  | .array elems _ => elems.isEmpty
  | _ => false

/-- `Value::len` — the evaluator calls it on arrays only. -/
def len : PValue → Nat
  | .array elems _ => elems.length
  | _ => 0

/-- Modelled from the spec: `Value::get_member(i)` (`value.rs` is not in
the sources) — element access, Undefined out of range (§4.9 treats an
out-of-range pick as no value). -/
def get_member : PValue → Nat → PValue
  | .array elems _, i => elems.getD i .undefined
  | _, _ => .undefined

/-- Modelled from the spec: `Value::members()` — iteration over the
elements of an array (§4.1); the evaluator only iterates arrays. -/
def members : PValue → List PValue
  | .array elems _ => elems
  | _ => []

/-- `Value::push` on an array (the pool's push by index, with the
handle's denotation substituted). -/
def push : PValue → PValue → PValue
  | .array elems f, v => .array (elems ++ [v]) f
  | v, _ => v

/-- Modelled from the spec: `wrap_in_array(flags)` returns a new array
containing `self` (§4.2). -/
def wrap_in_array (v : PValue) (flags : ArrayFlags) : PValue :=
  .array [v] flags

/-- Modelled from the spec: `wrap_in_array_if_needed(flags)` — no-op if
already an array, else wrap (§4.2). -/
def wrap_in_array_if_needed (v : PValue) (flags : ArrayFlags) : PValue :=
  match v with
  | .array elems f => .array elems f
  | v => v.wrap_in_array flags

/-- Modelled from the spec: `Value::is_integer` — the range operator
demands integer endpoints (§4.4); a number is an integer when its
rational payload has denominator 1 (doubles hold every such small
integer exactly). -/
def is_integer : PValue → Bool
  | .number n => n.den == 1
  | _ => false

/-- Modelled from the spec: `Value::as_usize` — the `f64 as usize` cast
of the range endpoints, which truncates and saturates at 0 for negative
input. -/
def as_usize : PValue → Nat
  | .number n => n.num.toNat
  | _ => 0

/-- Modelled from the spec: `Value::as_bool` — reads the payload of a
boolean value (`fn_boolean` applies it to its own recursive results). -/
def as_bool : PValue → Bool
  | .bool b => b
  | _ => false

end PValue

mutual

/-- Modelled from the spec: `Value::is_truthy` (§4.2) — false for
Undefined, Null, `false`, 0, `""`, `{}`; for arrays, false if empty,
else `is_truthy` of the first element when length 1, else OR across
elements. -/
def is_truthy : PValue → Bool
  | .undefined => false
  | .null => false
  | .bool b => b
  | .number n => !(n == 0)
  | .string s => !s.isEmpty
  | .obj entries => !entries.isEmpty
  | .array [] _ => false
  | .array [x] _ => is_truthy x
  | .array (x :: y :: rest) _ => is_truthyAny (x :: y :: rest)

/-- OR of `is_truthy` across a list of elements (the multi-element array
case of §4.2). -/
def is_truthyAny : List PValue → Bool
  | [] => false
  | x :: rest => is_truthy x || is_truthyAny rest

end

/-- First entry of an object under a key. -/
def lookupEntry (entries : List (String × PValue)) (k : String) : Option PValue :=
  match entries with
  | [] => none
  | (k', v) :: rest => if k' == k then some v else lookupEntry rest k

mutual

/-- Modelled from the spec: structural JSON equality, the `==` the
`Equal`/`NotEqual` and `in` operators apply after their Undefined guards
(§4.2) — numbers by (bit-free) numeric compare; arrays element-wise;
objects key-set equal with equal values; array flags are not semantic.
The operators never reach it with Undefined; on two Undefined it is
identity-like. -/
def valueEq : PValue → PValue → Bool
  | .undefined, .undefined => true
  | .null, .null => true
  | .bool a, .bool b => a == b
  | .number a, .number b => a == b
  | .string a, .string b => a == b
  | .array a _, .array b _ => valueEqList a b
  | .obj a, .obj b =>
    a.length == b.length && valueEqEntries a b
  | _, _ => false

/-- Element-wise equality of two arrays (lengths must agree). -/
def valueEqList : List PValue → List PValue → Bool
  | [], [] => true
  | a :: as', b :: bs => valueEq a b && valueEqList as' bs
  | _, _ => false

/-- Every entry of the first object is present in the second with an
equal value. -/
def valueEqEntries : List (String × PValue) → List (String × PValue) → Bool
  | [], _ => true
  | (k, v) :: rest, b =>
    (match lookupEntry b k with
     | some w => valueEq v w
     | none => false) && valueEqEntries rest b

end

mutual

/-- A value with no Undefined anywhere inside it and with object keys
unique at every level — the shape of every value the evaluator stores
(spec §3.4: Undefined never appears inside a SEQUENCE; §3.1: object
keys are unique). -/
def WellFormed : PValue → Prop
  | .array elems _ => WellFormedList elems
  | .obj entries => (entries.map Prod.fst).Nodup ∧ WellFormedEntries entries
  | _ => True

/-- All elements well-formed and none Undefined. -/
def WellFormedList : List PValue → Prop
  | [] => True
  | x :: rest => x ≠ .undefined ∧ WellFormed x ∧ WellFormedList rest

/-- All entry values well-formed and none Undefined. -/
def WellFormedEntries : List (String × PValue) → Prop
  | [] => True
  | (_, v) :: rest => v ≠ .undefined ∧ WellFormed v ∧ WellFormedEntries rest

end

/-- With unique keys, every entry of an object finds itself by lookup. -/
theorem lookupEntry_self (entries : List (String × PValue))
    (hnodup : (entries.map Prod.fst).Nodup) :
    ∀ p ∈ entries, lookupEntry entries p.1 = some p.2 := by
  induction entries with
  | nil => intro p hp; cases hp
  | cons q rest ih =>
    intro p hp
    rcases List.mem_cons.mp hp with hp | hp
    · subst hp
      simp [lookupEntry]
    · have hq : q.1 ∉ rest.map Prod.fst := by
        have := List.nodup_cons.mp hnodup
        simpa using this.1
      have hne : ¬(q.1 == p.1) := by
        simp only [beq_iff_eq]
        intro hqp
        exact hq (hqp ▸ List.mem_map_of_mem Prod.fst hp)
      rw [show lookupEntry (q :: rest) p.1 =
            if q.1 == p.1 then some q.2 else lookupEntry rest p.1 from rfl]
      rw [if_neg hne]
      exact ih (List.nodup_cons.mp hnodup).2 p hp

mutual

/-- `valueEq` is reflexive on well-formed values. -/
def valueEq_refl : ∀ v : PValue, WellFormed v → valueEq v v = true
  | .undefined, _ => rfl
  | .null, _ => rfl
  | .bool _, _ => by simp [valueEq]
  | .number _, _ => by simp [valueEq]
  | .string _, _ => by simp [valueEq]
  | .array elems _, h => by
    simpa [valueEq] using valueEqList_refl elems h
  | .obj entries, h => by
    simp [valueEq]
    exact valueEqEntries_refl entries entries h.2 (lookupEntry_self entries h.1)

/-- `valueEqList` is reflexive on well-formed element lists. -/
def valueEqList_refl : ∀ l : List PValue, WellFormedList l → valueEqList l l = true
  | [], _ => rfl
  | x :: rest, h => by
    simp [valueEqList]
    exact ⟨valueEq_refl x h.2.1, valueEqList_refl rest h.2.2⟩

/-- Every well-formed entry list compares `valueEqEntries`-equal to any
object in which each of its entries is found verbatim. -/
def valueEqEntries_refl : ∀ (e b : List (String × PValue)), WellFormedEntries e →
    (∀ p ∈ e, lookupEntry b p.1 = some p.2) → valueEqEntries e b = true
  | [], _, _, _ => rfl
  | (k, v) :: rest, b, h, hlook => by
    have hk : lookupEntry b k = some v := hlook (k, v) (List.mem_cons_self _ _)
    simp [valueEqEntries, hk]
    exact ⟨valueEq_refl v h.2.1,
           valueEqEntries_refl rest b h.2.2 fun p hp => hlook p (List.mem_cons_of_mem _ hp)⟩

end

/-- The errors the embedded fragment of the `jsonata` crate can produce.
Error positions feed only the rendered messages and are dropped.
`panicUnreachable` models a Rust `panic!`/`unreachable!` (an abort, not
an error value); `outOfFuel` is the embedding's fuel artifact, never
produced by the source's unbounded recursion. -/
inductive EvalError where
  | outOfFuel
  | t1003NonStringKey
  | t2001LeftSideNotNumber
  | t2002RightSideNotNumber
  | t2003LeftSideNotInteger
  | t2004RightSideNotInteger
  | t2009BinaryOpMismatch
  | t2010BinaryOpTypes
  | d1001NumberOutOfRange
  | d1002NegatingNonNumeric
  | d1009MultipleKeys (key : String)
  | panicUnreachable
deriving DecidableEq, Repr

/-- `fn_append` (`jsonata/src/functions.rs`): Undefined passes the other
argument through; otherwise the first argument is wrapped into a
SEQUENCE if it is not already an array, the second is wrapped into a
plain array if it is not already, and the second's members are pushed.
(The source wraps the result in `Result` but has no error path.) -/
def fn_append (arg1 arg2 : PValue) : PValue :=
  if arg1.is_undefined then arg2
  else if arg2.is_undefined then arg1
  else
    let result := arg1.wrap_in_array_if_needed ArrayFlags.seq
    let arg2 := arg2.wrap_in_array_if_needed ArrayFlags.empty
    arg2.members.foldl (fun acc m => acc.push m) result

mutual

/-- `fn_boolean` (`jsonata/src/functions.rs`, identical in both crates'
`functions.rs`): Undefined maps to Undefined; Null, `false`, 0, `""`,
`{}` and functions map to `false`; a one-element array maps to the
recursive result on its element; a longer array to OR across elements. -/
def fn_boolean : PValue → Except EvalError PValue
  | .undefined => .ok .undefined
  | .null => .ok (.bool false)
  | .bool b => .ok (.bool b)
  | .number num => .ok (.bool (!(num == 0)))
  | .string str => .ok (.bool (!str.isEmpty))
  | .obj o => .ok (.bool (!o.isEmpty))
  | .array [] _ => .ok (.bool false)
  | .array [x] _ => fn_boolean x
  | .array (x :: y :: rest) _ => fn_booleanAny (x :: y :: rest)

/-- The multi-element loop of `fn_boolean`: return `true` at the first
element whose recursive result reads back `true`, else `false`. -/
def fn_booleanAny : List PValue → Except EvalError PValue
  | [] => .ok (.bool false)
  | x :: rest => do
    let r ← fn_boolean x
    if r.as_bool then .ok (.bool true) else fn_booleanAny rest

end

/-- `fn_count` (`jsonata/src/functions.rs`): 0 for Undefined, the length
for arrays, 1 otherwise; never an error. -/
def fn_count (arg : PValue) : Except EvalError PValue :=
  .ok (.number (if arg.is_undefined then 0
                else if arg.is_array then arg.len
                else 1))

/-- The count the claim describes, written from its words: 0 for
Undefined, the element count for an array regardless of flags, 1 for
every other value. -/
def countSpec : PValue → ℚ
  | .undefined => 0
  | .array elems _ => elems.length
  | _ => 1

/-- The binary operators of the embedded fragment
(`Concat` needs the JSON serializer and `Apply` the function machinery,
both outside the fragment; no verified property mentions them). -/
inductive BinaryOp where
  | add | subtract | multiply | divide | modulus
  | lessThan | lessThanEqual | greaterThan | greaterThanEqual
  | equal | notEqual
  | range
  | and | or
  | inOp
  | bind
deriving DecidableEq, Repr

mutual

/-- An AST node (`jsonata/src/ast.rs` shape, spec §3.3): a kind plus the
`keep_array` (trailing `[]`) and `cons_array` (explicit `[…]`) flags.
Source positions feed only error messages and are dropped; nodes with
predicates, and the Path/Name/Lambda/Function kinds, are outside the
embedded fragment. The source's `Unary(op)` wrapper is flattened into
its three cases. -/
inductive Ast where
  | mk (kind : AstKind) (keepArray : Bool) (consArray : Bool)

/-- Kinds of AST nodes of the embedded fragment. -/
inductive AstKind where
  | null
  | bool (b : Bool)
  | number (n : ℚ)
  | string (s : String)
  | var (name : String)
  | block (exprs : List Ast)
  | unaryMinus (expr : Ast)
  | arrayConstructor (items : List Ast)
  | objectConstructor (pairs : List (Ast × Ast))
  | binary (op : BinaryOp) (lhs rhs : Ast)
  | ternary (cond truthy : Ast) (falsy : Option Ast)

end

/-- Kind of a node. -/
def Ast.kind : Ast → AstKind
  | .mk k _ _ => k

/-- The node's `keep_array` flag. -/
def Ast.keepArray : Ast → Bool
  | .mk _ ka _ => ka

/-- The node's `cons_array` flag. -/
def Ast.consArray : Ast → Bool
  | .mk _ _ ca => ca

/-- A node with both flags clear (the common case). -/
def mkNode (k : AstKind) : Ast := .mk k false false

/-- The frame chain (spec §3.2), innermost scope first.  The source's
`Frame` is a shared mutable map with a parent pointer; in the embedded
fragment (no lambda capture) the live chain is a stack, threaded through
evaluation as state. -/
def Frames : Type := List (List (String × PValue))

/-- Binding lookup within one scope. -/
def lookupScope (scope : List (String × PValue)) (name : String) : Option PValue :=
  match scope with
  | [] => none
  | (n, v) :: rest => if n == name then some v else lookupScope rest name

/-- `Frame::lookup`: walk the parent chain. -/
def Frames.lookup (frames : Frames) (name : String) : Option PValue :=
  match frames with
  | [] => none
  | scope :: rest =>
    match lookupScope scope name with
    | some v => some v
    | none => Frames.lookup rest name

/-- Replace a binding in a scope, or append it. -/
def bindScope (scope : List (String × PValue)) (name : String) (v : PValue) :
    List (String × PValue) :=
  match scope with
  | [] => [(name, v)]
  | (n, w) :: rest =>
    if n == name then (n, v) :: rest else (n, w) :: bindScope rest name v

/-- `Frame::bind`: write into the current (innermost) frame only. -/
def Frames.bind (frames : Frames) (name : String) (v : PValue) : Frames :=
  match frames with
  | [] => [[(name, v)]]
  | scope :: rest => bindScope scope name v :: rest

/-- The type of the evaluator one fuel step down, passed to the loop
helpers so each is plain structural recursion. -/
def Ev : Type := Ast → PValue → Frames → Except EvalError (PValue × Frames)

/-- The arithmetic of `+ - * / %` on the rational model of doubles
(`/` by zero and `%` are the model's stand-ins for the corresponding
IEEE operations; no verified property evaluates them). -/
def applyArith (op : BinaryOp) (lhs rhs : ℚ) : ℚ :=
  match op with
  | .add => lhs + rhs
  | .subtract => lhs - rhs
  | .multiply => lhs * rhs
  | .divide => lhs / rhs
  | _ => lhs - rhs * ((lhs / rhs : ℚ).floor : ℚ)

/-- Numeric comparison dispatch. -/
def applyCompareNum (op : BinaryOp) (lhs rhs : ℚ) : Bool :=
  match op with
  | .lessThan => lhs < rhs
  | .lessThanEqual => lhs ≤ rhs
  | .greaterThan => rhs < lhs
  | _ => rhs ≤ lhs

/-- String comparison dispatch (Rust `str` ordering is lexicographic by
scalar value, as is Lean's). -/
def applyCompareStr (op : BinaryOp) (lhs rhs : String) : Bool :=
  match op with
  | .lessThan => lhs < rhs
  | .lessThanEqual => lhs ≤ rhs
  | .greaterThan => rhs < lhs
  | _ => rhs ≤ lhs

/-- The tail of `Evaluator::evaluate` (`jsonata/src/evaluator.rs`
lines 79–96): sequence collapsing.  If the result is an array carrying
`SEQUENCE`: when the node's `keep_array` flag is set, `SINGLETON` is
added first; an empty sequence becomes Undefined; a one-element sequence
without `SINGLETON` becomes its sole element; anything else is returned
as-is. -/
def collapseSequence (keepArray : Bool) (result : PValue) : PValue :=
  if result.hasSequence then
    let result := if keepArray then result.addSingleton else result
    if result.is_empty then .undefined
    else if result.len == 1 then
      if result.hasSingleton then result else result.get_member 0
    else result
  else result

/-- `Evaluator::evaluate_var`. -/
def evalVar (input : PValue) (frames : Frames) (name : String) :
    Except EvalError (PValue × Frames) :=
  if name = "" then
    if input.hasWrapped then .ok (input.get_member 0, frames)
    else .ok (input, frames)
  else
    match frames.lookup name with
    | some v => .ok (v, frames)
    | none => .ok (.undefined, frames)

/-- The expression loop of `Evaluator::evaluate_block`. -/
def evalExprSeq (ev : Ev) : List Ast → PValue → PValue → Frames →
    Except EvalError (PValue × Frames)
  | [], _, result, frames => .ok (result, frames)
  | e :: rest, input, _, frames => do
    let (r, frames) ← ev e input frames
    evalExprSeq ev rest input r frames

/-- `Evaluator::evaluate_block`: open a child frame, evaluate each
expression, return the last (Undefined when empty); the child frame is
dropped on exit. -/
def evalBlockWith (ev : Ev) (exprs : List Ast) (input : PValue) (frames : Frames) :
    Except EvalError (PValue × Frames) :=
  if exprs.isEmpty then .ok (.undefined, frames)
  else do
    let (v, frames') ← evalExprSeq ev exprs input .undefined ([] :: frames)
    .ok (v, frames'.tail)

/-- The item loop of the `ArrayConstructor` arm of
`Evaluator::evaluate_unary_op`: a nested explicit array constructor is
pushed as-is, anything else is combined via `fn_append`. -/
def evalArrayItems (ev : Ev) : List Ast → PValue → Frames → PValue →
    Except EvalError (PValue × Frames)
  | [], _, frames, result => .ok (result, frames)
  | item :: rest, input, frames, result => do
    let (value, frames) ← ev item input frames
    let result :=
      match item.kind with
      | .arrayConstructor _ => result.push value
      | _ => fn_append result value
    evalArrayItems ev rest input frames result

/-- The `ArrayConstructor` arm of `Evaluator::evaluate_unary_op`: start
from an empty array flagged `CONS` when the node's `cons_array` is set. -/
def evalArrayCtorWith (ev : Ev) (items : List Ast) (consArray : Bool)
    (input : PValue) (frames : Frames) : Except EvalError (PValue × Frames) :=
  evalArrayItems ev items input frames
    (.array [] (if consArray then ArrayFlags.consOnly else ArrayFlags.empty))

/-- One accumulated group of `Evaluator::evaluate_group_expression`:
the data collected so far and the key/value pair index that created it. -/
structure Group where
  data : PValue
  index : Nat

/-- Lookup in the accumulated groups (the source's `HashMap` keyed by
the evaluated key string; association order models it faithfully for
lookup and the claim-relevant behavior — the spec leaves group iteration
order to the implementation). -/
def lookupGroup : List (String × Group) → String → Option Group
  | [], _ => none
  | (k, g) :: rest, key => if k == key then some g else lookupGroup rest key

/-- Replace the group stored under a key. -/
def updateGroup : List (String × Group) → String → Group → List (String × Group)
  | [], _, _ => []
  | (k, g) :: rest, key, g' =>
    if k == key then (k, g') :: rest else (k, g) :: updateGroup rest key g'

/-- The `groups.entry(key)` match of `Evaluator::evaluate_group_expression`
(`jsonata/src/evaluator.rs` lines 197–215): an occupied entry created by
a different pair index raises `D1009`; an occupied entry with the same
index appends the member to the group's data via `fn_append`; a vacant
entry is filled with the member itself. -/
def groupInsert (groups : List (String × Group)) (key : String) (index : Nat)
    (item : PValue) : Except EvalError (List (String × Group)) :=
  match lookupGroup groups key with
  | some group =>
    if group.index ≠ index then throw (.d1009MultipleKeys key)
    else .ok (updateGroup groups key { group with data := fn_append group.data item })
  | none => .ok (groups ++ [(key, ⟨item, index⟩)])

/-- The inner pair loop of `Evaluator::evaluate_group_expression`:
evaluate each pair's key in the member's context; a non-string key is
`T1003`; then insert. -/
def groupCollectPairs (ev : Ev) (item : PValue) : Nat → List (Ast × Ast) → Frames →
    List (String × Group) → Except EvalError (List (String × Group) × Frames)
  | _, [], frames, groups => .ok (groups, frames)
  | index, pair :: rest, frames, groups => do
    let (key, frames) ← ev pair.1 item frames
    match key with
    | .string s => do
      let groups ← groupInsert groups s index item
      groupCollectPairs ev item (index + 1) rest frames groups
    | _ => throw .t1003NonStringKey

/-- The outer member loop of `Evaluator::evaluate_group_expression`. -/
def groupCollectMembers (ev : Ev) (pairs : List (Ast × Ast)) : List PValue → Frames →
    List (String × Group) → Except EvalError (List (String × Group) × Frames)
  | [], frames, groups => .ok (groups, frames)
  | item :: rest, frames, groups => do
    let (groups, frames) ← groupCollectPairs ev item 0 pairs frames groups
    groupCollectMembers ev pairs rest frames groups

/-- The output loop of `Evaluator::evaluate_group_expression`: evaluate
each group's value expression with the accumulated data as input and
insert non-Undefined results under the key. -/
def groupOutput (ev : Ev) (pairs : List (Ast × Ast)) : List (String × Group) → Frames →
    List (String × PValue) → Except EvalError (PValue × Frames)
  | [], frames, acc => .ok (.obj acc, frames)
  | (key, group) :: rest, frames, acc => do
    let pair := pairs.getD group.index (mkNode .null, mkNode .null)
    let (value, frames) ← ev pair.2 group.data frames
    let acc := if value.is_undefined then acc else acc ++ [(key, value)]
    groupOutput ev pairs rest frames acc

/-- `Evaluator::evaluate_group_expression` (`jsonata/src/evaluator.rs`
lines 169–230): normalize the input to an array (pushing a single
Undefined member when empty), collect groups, then build the output
object. -/
def evaluateGroupExpressionWith (ev : Ev) (pairs : List (Ast × Ast))
    (input : PValue) (frames : Frames) : Except EvalError (PValue × Frames) := do
  let input := input.wrap_in_array_if_needed ArrayFlags.empty
  let input := if input.is_empty then input.push .undefined else input
  let (groups, frames) ← groupCollectMembers ev pairs input.members frames []
  groupOutput ev pairs groups frames []

/-- The `Minus` arm of `Evaluator::evaluate_unary_op`: Undefined passes
through; a number (never NaN in the model) negates; anything else is
`D1002`. -/
def evalUnaryMinusWith (ev : Ev) (expr : Ast) (input : PValue) (frames : Frames) :
    Except EvalError (PValue × Frames) := do
  let (result, frames) ← ev expr input frames
  match result with
  | .undefined => .ok (.undefined, frames)
  | .number num => .ok (.number (-num), frames)
  | _ => throw .d1002NegatingNonNumeric

/-- `Evaluator::evaluate_ternary`. -/
def evalTernaryWith (ev : Ev) (cond truthy : Ast) (falsy : Option Ast)
    (input : PValue) (frames : Frames) : Except EvalError (PValue × Frames) := do
  let (c, frames) ← ev cond input frames
  if is_truthy c then ev truthy input frames
  else
    match falsy with
    | some f => ev f input frames
    | none => .ok (.undefined, frames)

/-- `Evaluator::evaluate_binary_op` (`jsonata/src/evaluator.rs`
lines 232–479) over the embedded operators.  `Bind` evaluates its
right-hand side before anything else and binds it into the current
frame; every other operator evaluates the left side first and the right
side only when needed, so `and`/`or` short-circuit exactly as Rust's
`&&`/`||` do in the source.  The over-cap range arm is the source's
`// TODO: D2014` followed by `unreachable!()`, i.e. a panic. -/
def evalBinaryWith (ev : Ev) (op : BinaryOp) (lhsAst rhsAst : Ast)
    (input : PValue) (frames : Frames) : Except EvalError (PValue × Frames) :=
  match op with
  | .bind =>
    match lhsAst.kind with
    | .var name => do
      let (rhs, frames) ← ev rhsAst input frames
      .ok (rhs, frames.bind name rhs)
    | _ => throw .panicUnreachable
  | _ => do
    let (lhs, frames) ← ev lhsAst input frames
    match op with
    | .add | .subtract | .multiply | .divide | .modulus => do
      let (rhs, frames) ← ev rhsAst input frames
      match lhs with
      | .undefined => .ok (.undefined, frames)
      | .number lnum =>
        match rhs with
        | .undefined => .ok (.undefined, frames)
        | .number rnum =>
          -- `result.is_infinite()` cannot hold in the rational model,
          -- so the D1001 promotion is never taken here.
          .ok (.number (applyArith op lnum rnum), frames)
        | _ => throw .t2002RightSideNotNumber
      | _ => throw .t2001LeftSideNotNumber
    | .lessThan | .lessThanEqual | .greaterThan | .greaterThanEqual => do
      let (rhs, frames) ← ev rhsAst input frames
      if lhs.is_undefined || rhs.is_undefined then .ok (.undefined, frames)
      else if !((lhs.is_number || lhs.is_string) && (rhs.is_number || rhs.is_string)) then
        throw .t2010BinaryOpTypes
      else
        match lhs, rhs with
        | .number a, .number b => .ok (.bool (applyCompareNum op a b), frames)
        | .string a, .string b => .ok (.bool (applyCompareStr op a b), frames)
        | _, _ => throw .t2009BinaryOpMismatch
    | .equal | .notEqual => do
      let (rhs, frames) ← ev rhsAst input frames
      if lhs.is_undefined || rhs.is_undefined then .ok (.bool false, frames)
      else
        .ok (.bool (match op with
                    | .equal => valueEq lhs rhs
                    | _ => !(valueEq lhs rhs)), frames)
    | .range => do
      let (rhs, frames) ← ev rhsAst input frames
      if !lhs.is_undefined && !lhs.is_integer then throw .t2003LeftSideNotInteger
      else if !rhs.is_undefined && !rhs.is_integer then throw .t2004RightSideNotInteger
      else if lhs.is_undefined || rhs.is_undefined then .ok (.undefined, frames)
      else
        let lhsU := lhs.as_usize
        let rhsU := rhs.as_usize
        if lhsU > rhsU then .ok (.undefined, frames)
        else
          let size := rhsU - lhsU + 1
          if size > 10000000 then
            -- The source reads `// TODO: D2014` and then `unreachable!()`:
            -- the over-cap branch aborts instead of returning D2014.
            throw .panicUnreachable
          else
            .ok (.array ((List.range size).map fun i => .number ((lhsU + i : ℕ) : ℚ))
                   ArrayFlags.seq, frames)
    | .and =>
      if !(is_truthy lhs) then .ok (.bool false, frames)
      else do
        let (rhs, frames) ← ev rhsAst input frames
        .ok (.bool (is_truthy rhs), frames)
    | .or =>
      if is_truthy lhs then .ok (.bool true, frames)
      else do
        let (rhs, frames) ← ev rhsAst input frames
        .ok (.bool (is_truthy rhs), frames)
    | .inOp => do
      let (rhs, frames) ← ev rhsAst input frames
      if lhs.is_undefined || rhs.is_undefined then .ok (.bool false, frames)
      else
        let rhsArr := rhs.wrap_in_array_if_needed ArrayFlags.empty
        .ok (.bool (rhsArr.members.any fun item => valueEq item lhs), frames)
    | .bind => throw .panicUnreachable

/-- `Evaluator::evaluate` (`jsonata/src/evaluator.rs` lines 39–97):
dispatch on the node kind, then apply sequence collapsing to the raw
result.  Fuel makes the recursion total; the source never exhausts it. -/
def evaluate : Nat → Ast → PValue → Frames → Except EvalError (PValue × Frames)
  | 0, _, _, _ => throw .outOfFuel
  | fuel + 1, node, input, frames => do
    let ev : Ev := evaluate fuel
    let (result, frames) ←
      (match node.kind with
       | .null => .ok (PValue.null, frames)
       | .bool b => .ok (.bool b, frames)
       | .string s => .ok (.string s, frames)
       | .number n => .ok (.number n, frames)
       | .block exprs => evalBlockWith ev exprs input frames
       | .var name => evalVar input frames name
       | .unaryMinus e => evalUnaryMinusWith ev e input frames
       | .arrayConstructor items => evalArrayCtorWith ev items node.consArray input frames
       | .objectConstructor pairs => evaluateGroupExpressionWith ev pairs input frames
       | .binary op lhs rhs => evalBinaryWith ev op lhs rhs input frames
       | .ternary c t f => evalTernaryWith ev c t f input frames
       : Except EvalError (PValue × Frames))
    .ok (collapseSequence node.keepArray result, frames)

/-- The members of a well-formed value form a well-formed list. -/
theorem wf_members (v : PValue) (h : WellFormed v) : WellFormedList v.members := by
  cases v <;> simp_all [PValue.members, WellFormed, WellFormedList]

mutual

/-- On a defined, well-formed-shape argument (no Undefined inside),
`fn_boolean` computes exactly the `is_truthy` coercion. -/
def fn_boolean_eq_is_truthy : ∀ v : PValue, v ≠ .undefined → WellFormedList v.members →
    fn_boolean v = .ok (.bool (is_truthy v))
  | .undefined, h, _ => absurd rfl h
  | .null, _, _ => rfl
  | .bool _, _, _ => rfl
  | .number _, _, _ => rfl
  | .string _, _, _ => rfl
  | .obj _, _, _ => rfl
  | .array [] _, _, _ => rfl
  | .array [x] _, _, h => by
    simp only [PValue.members, WellFormedList] at h
    have hx := fn_boolean_eq_is_truthy x h.1 (wf_members x h.2.1)
    simpa [fn_boolean, is_truthy] using hx
  | .array (x :: y :: rest) _, _, h => by
    simp only [PValue.members] at h
    simpa [fn_boolean, is_truthy] using fn_booleanAny_eq_is_truthyAny (x :: y :: rest) h

/-- List form of `fn_boolean_eq_is_truthy`. -/
def fn_booleanAny_eq_is_truthyAny : ∀ l : List PValue, WellFormedList l →
    fn_booleanAny l = .ok (.bool (is_truthyAny l))
  | [], _ => rfl
  | x :: rest, h => by
    have hx := fn_boolean_eq_is_truthy x h.1 (wf_members x h.2.1)
    have hrest := fn_booleanAny_eq_is_truthyAny rest h.2.2
    by_cases ht : is_truthy x
    · simp [fn_booleanAny, hx, ht, PValue.as_bool, is_truthyAny,
        Bind.bind, Except.bind]
    · simp [fn_booleanAny, hx, ht, PValue.as_bool, is_truthyAny, hrest,
        Bind.bind, Except.bind]

end

end Pooled

namespace Legacy

/-- `json::JsonValue` as the legacy evaluator (`src/evaluator.rs`) uses
it, numbers again modelled by rationals. -/
inductive Json where
  | null
  | bool (b : Bool)
  | number (n : ℚ)
  | str (s : String)
  | array (elems : List Json)
  | obj (entries : List (String × Json))

mutual

/-- Structural equality of the `json` crate (`JsonValue: PartialEq`
semantics): numbers numerically, arrays element-wise in full, objects
entry-wise. -/
def jsonEq : Json → Json → Bool
  | .null, .null => true
  | .bool a, .bool b => a == b
  | .number a, .number b => a == b
  | .str a, .str b => a == b
  | .array a, .array b => jsonEqList a b
  | .obj a, .obj b => jsonEqEntries a b
  | _, _ => false

/-- Element-wise `jsonEq`. -/
def jsonEqList : List Json → List Json → Bool
  | [], [] => true
  | a :: as', b :: bs => jsonEq a b && jsonEqList as' bs
  | _, _ => false

/-- Entry-wise `jsonEq` (insertion order; the legacy properties below
use no objects). -/
def jsonEqEntries : List (String × Json) → List (String × Json) → Bool
  | [], [] => true
  | (k, v) :: rest, (k', v') :: rest' =>
    k == k' && jsonEq v v' && jsonEqEntries rest rest'
  | _, _ => false

end

/-- The legacy `Value` (`src/evaluator.rs` lines 12–21): Undefined, a
raw JSON value, or an array of values carrying `is_seq` and
`keep_array` booleans. -/
inductive LValue where
  | undefined
  | raw (j : Json)
  | array (arr : List LValue) (is_seq : Bool) (keep_array : Bool)

namespace LValue

/-- `Value::is_undef`. -/
def is_undef : LValue → Bool
  | .undefined => true
  | _ => false

/-- `Value::is_raw`. -/
def is_raw : LValue → Bool
  | .raw _ => true
  | _ => false

/-- `Value::is_array`. -/
def is_array : LValue → Bool
  | .array _ _ _ => true
  | _ => false

/-- `Value::is_seq`. -/
def is_seq : LValue → Bool
  | .array _ s _ => s
  | _ => false

/-- `Value::keep_array`. -/
def keep_array : LValue → Bool
  | .array _ _ k => k
  | _ => false

/-- `Value::as_raw` — panics (`none`) when the value is not `Raw`. -/
def as_raw : LValue → Option Json
  | .raw j => some j
  | _ => none

/-- `Value::len` — the evaluator calls it on arrays only. -/
def len : LValue → Nat
  | .array arr _ _ => arr.length
  | _ => 0

/-- `Value::is_empty` on arrays. -/
def is_empty : LValue → Bool
  | .array arr _ _ => arr.isEmpty
  | _ => false

/-- Elements of an array (`Value::iter`); the evaluator only iterates
arrays. -/
def elems : LValue → List LValue
  | .array arr _ _ => arr
  | _ => []

/-- `Value::push` on an array. -/
def push : LValue → LValue → LValue
  | .array arr s k, v => .array (arr ++ [v]) s k
  | v, _ => v

end LValue

mutual

/-- `impl PartialEq for Value` (`src/evaluator.rs` lines 194–215).
Undefined equals Undefined; raw values compare structurally; arrays
first compare lengths, then compare the elements at indices
`0 .. len - 1` — an exclusive range that stops one short of the final
element — and on two empty arrays the `self.len() - 1` underflow (or
the out-of-bounds index it produces in release builds) panics, which
`none` models. -/
def eqVal : LValue → LValue → Option Bool
  | .undefined, .undefined => some true
  | .raw a, .raw b => some (jsonEq a b)
  | .array a _ _, .array b _ _ =>
    if a.length ≠ b.length then some false
    else
      match a, b with
      | [], _ => none
      | a₀ :: arest, b => eqButLast (a₀ :: arest) b
  | _, _ => some false

/-- The `for i in 0..self.len() - 1` loop body: compare every pair
except the final one (the singleton case compares nothing). -/
def eqButLast : List LValue → List LValue → Option Bool
  | [_], _ => some true
  | a :: as', b :: bs => do
    let e ← eqVal a b
    if e then eqButLast as' bs else some false
  | _, _ => some true

end

/-- The binary operators the legacy evaluator handles and the embedding
covers (`Concat` and `In` call the crate's missing helper functions and
no verified property mentions them). -/
inductive BinOp where
  | add | subtract | multiply | divide | modulus
  | lessThan | lessThanEqual | greaterThan | greaterThanEqual
  | equal | notEqual
  | and | or
  | bind
deriving DecidableEq, Repr

/-- A legacy AST node (`NodeKind` plus children, `src/ast.rs` shape);
positions dropped, `Path`/`Name` and the kinds the source leaves
`unimplemented!` are outside the embedded fragment.  Children are
inlined per kind instead of the source's uniform `children` vector. -/
inductive Node where
  | null
  | bool (b : Bool)
  | num (n : ℚ)
  | str (s : String)
  | var (name : String)
  | block (exprs : List Node)
  | unaryMinus (expr : Node)
  | unaryArray (items : List Node) (keepArray : Bool)
  | binary (op : BinOp) (lhs rhs : Node)
  | ternary (cond truthy : Node) (falsy : Option Node)

/-- Legacy frames: `Binding::Var` stores a `JsonValue`, so the frame
chain maps names to JSON values (innermost scope first). -/
def LFrames : Type := List (List (String × Json))

/-- Lookup within one legacy scope. -/
def lookupLScope (scope : List (String × Json)) (name : String) : Option Json :=
  match scope with
  | [] => none
  | (n, v) :: rest => if n == name then some v else lookupLScope rest name

/-- Legacy `Frame::lookup`. -/
def LFrames.lookup (frames : LFrames) (name : String) : Option Json :=
  match frames with
  | [] => none
  | scope :: rest =>
    match lookupLScope scope name with
    | some v => some v
    | none => LFrames.lookup rest name

/-- Replace-or-append within one legacy scope. -/
def bindLScope (scope : List (String × Json)) (name : String) (v : Json) :
    List (String × Json) :=
  match scope with
  | [] => [(name, v)]
  | (n, w) :: rest =>
    if n == name then (n, v) :: rest else (n, w) :: bindLScope rest name v

/-- Legacy `Frame::bind`. -/
def LFrames.bind (frames : LFrames) (name : String) (v : Json) : LFrames :=
  match frames with
  | [] => [[(name, v)]]
  | scope :: rest => bindLScope scope name v :: rest

mutual

/-- `Value::to_json` (`src/evaluator.rs` lines 163–174): Undefined has
no JSON form; arrays drop Undefined elements and convert the rest. -/
def toJson : LValue → Option Json
  | .undefined => none
  | .raw j => some j
  | .array arr _ _ => some (.array (toJsonList arr))

/-- The array case of `to_json`: drop Undefined elements, convert the
rest. -/
def toJsonList : List LValue → List Json
  | [] => []
  | x :: rest =>
    match toJson x with
    | some j => j :: toJsonList rest
    | none => toJsonList rest

end

mutual

/-- Modelled from the spec: §4.2 truthiness over raw JSON values (used
by the legacy `boolean` builtin, whose `functions.rs` is not in the
sources). -/
def jsonTruthy : Json → Bool
  | .null => false
  | .bool b => b
  | .number n => !(n == 0)
  | .str s => !s.isEmpty
  | .obj entries => !entries.isEmpty
  | .array [] => false
  | .array [x] => jsonTruthy x
  | .array (x :: y :: rest) => jsonTruthyAny (x :: y :: rest)

/-- OR across elements for the multi-element array case. -/
def jsonTruthyAny : List Json → Bool
  | [] => false
  | x :: rest => jsonTruthy x || jsonTruthyAny rest

end

mutual

/-- Modelled from the spec: the legacy `boolean` builtin over legacy
values — false for Undefined, §4.2 truthiness otherwise. -/
def lboolean : LValue → Bool
  | .undefined => false
  | .raw j => jsonTruthy j
  | .array [] _ _ => false
  | .array [x] _ _ => lboolean x
  | .array (x :: y :: rest) _ _ => lbooleanAny (x :: y :: rest)

/-- OR across legacy array elements. -/
def lbooleanAny : List LValue → Bool
  | [] => false
  | x :: rest => lboolean x || lbooleanAny rest

end

/-- Modelled from the spec: the legacy `append` builtin (§4.6) — wrap
the first argument into a sequence if not already an array, the second
into a plain array if not already, and push the second's members. -/
def lappend (a b : LValue) : LValue :=
  let a := match a with
    | .array arr s k => LValue.array arr s k
    | v => .array [v] true false
  let b' := match b with
    | .array arr s k => LValue.array arr s k
    | v => .array [v] false false
  b'.elems.foldl (fun acc m => acc.push m) a

/-- Errors of the legacy fragment; `panic` models every
`panic!`/`unreachable!`/`unwrap` abort. -/
inductive LErr where
  | outOfFuel
  | t2001
  | t2002
  | t2009
  | t2010
  | d1002
  | panic
deriving DecidableEq, Repr

/-- Legacy arithmetic dispatch on the rational model. -/
def lapplyArith (op : BinOp) (lhs rhs : ℚ) : ℚ :=
  match op with
  | .add => lhs + rhs
  | .subtract => lhs - rhs
  | .multiply => lhs * rhs
  | .divide => lhs / rhs
  | _ => lhs - rhs * ((lhs / rhs : ℚ).floor : ℚ)

/-- Legacy numeric comparison dispatch. -/
def lapplyCompareNum (op : BinOp) (lhs rhs : ℚ) : Bool :=
  match op with
  | .lessThan => lhs < rhs
  | .lessThanEqual => lhs ≤ rhs
  | .greaterThan => rhs < lhs
  | _ => rhs ≤ lhs

/-- Legacy string comparison dispatch. -/
def lapplyCompareStr (op : BinOp) (lhs rhs : String) : Bool :=
  match op with
  | .lessThan => lhs < rhs
  | .lessThanEqual => lhs ≤ rhs
  | .greaterThan => rhs < lhs
  | _ => rhs ≤ lhs

/-- The evaluator one fuel step down, for the loop helpers. -/
def LEv : Type := Node → LValue → LFrames → Except LErr (LValue × LFrames)

/-- The expression loop of the legacy `evaluate_block`. -/
def levalExprSeq (ev : LEv) : List Node → LValue → LValue → LFrames →
    Except LErr (LValue × LFrames)
  | [], _, result, frames => .ok (result, frames)
  | e :: rest, input, _, frames => do
    let (r, frames) ← ev e input frames
    levalExprSeq ev rest input r frames

/-- Legacy `evaluate_block` (`src/evaluator.rs` lines 575–588): child
frame, sequential evaluation, last result (Undefined when empty). -/
def levalBlockWith (ev : LEv) (exprs : List Node) (input : LValue) (frames : LFrames) :
    Except LErr (LValue × LFrames) := do
  let (v, frames') ← levalExprSeq ev exprs input .undefined ([] :: frames)
  .ok (v, frames'.tail)

/-- The item loop of the legacy array constructor
(`src/evaluator.rs` lines 275–291): Undefined values are skipped, a
nested explicit array constructor is pushed as-is, anything else is
combined via `append`. -/
def levalArrayItems (ev : LEv) : List Node → LValue → LFrames → LValue →
    Except LErr (LValue × LFrames)
  | [], _, frames, result => .ok (result, frames)
  | item :: rest, input, frames, result => do
    let (value, frames) ← ev item input frames
    let result :=
      if value.is_undef then result
      else
        match item with
        | .unaryArray _ _ => result.push value
        | _ => lappend result value
    levalArrayItems ev rest input frames result

/-- Legacy `evaluate_unary_op`, `Array` arm: build from
`Value::new_array`, then set `keep_array` when the node asks for it. -/
def levalArrayCtorWith (ev : LEv) (items : List Node) (keepArray : Bool)
    (input : LValue) (frames : LFrames) : Except LErr (LValue × LFrames) := do
  let (result, frames) ← levalArrayItems ev items input frames (.array [] false false)
  let result :=
    if keepArray then
      match result with
      | .array arr s _ => LValue.array arr s true
      | v => v
    else result
  .ok (result, frames)

/-- Legacy `evaluate_unary_op`, `Minus` arm: a raw number negates, any
other raw is `D1002`, a non-raw result panics
(`"should've been an Input::Value"`). -/
def levalUnaryMinusWith (ev : LEv) (expr : Node) (input : LValue) (frames : LFrames) :
    Except LErr (LValue × LFrames) := do
  let (result, frames) ← ev expr input frames
  match result with
  | .raw (.number n) => .ok (.raw (.number (-n)), frames)
  | .raw _ => throw .d1002
  | _ => throw .panic

/-- Legacy `evaluate_bind_expression` (`src/evaluator.rs` lines
321–332): evaluate the right-hand side once; when it is defined and the
left-hand side is a `Var` node, bind its JSON form into the current
frame; the expression's value is always Undefined. -/
def levalBindWith (ev : LEv) (lhs rhs : Node) (input : LValue) (frames : LFrames) :
    Except LErr (LValue × LFrames) := do
  let (value, frames) ← ev rhs input frames
  let frames :=
    if value.is_undef then frames
    else
      match lhs with
      | .var name =>
        match toJson value with
        | some j => frames.bind name j
        | none => frames
      | _ => frames
  .ok (.undefined, frames)

/-- Legacy `evaluate_binary_op` dispatch (`src/evaluator.rs` lines
299–505).  Every arm — including `And`/`Or` — evaluates both children
eagerly before inspecting either. -/
def levalBinaryWith (ev : LEv) (op : BinOp) (lhsAst rhsAst : Node)
    (input : LValue) (frames : LFrames) : Except LErr (LValue × LFrames) :=
  match op with
  | .bind => levalBindWith ev lhsAst rhsAst input frames
  | .add | .subtract | .multiply | .divide | .modulus => do
    -- evaluate_numeric_expression: `as_raw` panics on non-raw operands
    -- (Undefined included); non-number raws are T2001/T2002.
    let (lhs, frames) ← ev lhsAst input frames
    let (rhs, frames) ← ev rhsAst input frames
    match lhs.as_raw with
    | none => throw .panic
    | some lraw =>
      match lraw with
      | .number lnum =>
        match rhs.as_raw with
        | none => throw .panic
        | some rraw =>
          match rraw with
          | .number rnum => .ok (.raw (.number (lapplyArith op lnum rnum)), frames)
          | _ => throw .t2002
      | _ => throw .t2001
  | .lessThan | .lessThanEqual | .greaterThan | .greaterThanEqual => do
    -- evaluate_comparison_expression: Undefined propagates, non-raw
    -- operands panic, then number/number, string/string, else T2009.
    let (lhs, frames) ← ev lhsAst input frames
    let (rhs, frames) ← ev rhsAst input frames
    if lhs.is_undef then .ok (.undefined, frames)
    else if rhs.is_undef then .ok (.undefined, frames)
    else
      match lhs.as_raw, rhs.as_raw with
      | some lraw, some rraw =>
        let lnum := match lraw with | .number _ => true | _ => false
        let lstr := match lraw with | .str _ => true | _ => false
        let rnum := match rraw with | .number _ => true | _ => false
        let rstr := match rraw with | .str _ => true | _ => false
        if !((lnum || lstr) && (rnum || rstr)) then throw .t2010
        else
          match lraw, rraw with
          | .number a, .number b => .ok (.raw (.bool (lapplyCompareNum op a b)), frames)
          | .str a, .str b => .ok (.raw (.bool (lapplyCompareStr op a b)), frames)
          | _, _ => throw .t2009
      | _, _ => throw .panic
  | .equal | .notEqual => do
    -- evaluate_equality_expression (`src/evaluator.rs` lines 477–493):
    -- no Undefined guard — the result is `lhs == rhs` through
    -- `PartialEq for Value` directly.
    let (lhs, frames) ← ev lhsAst input frames
    let (rhs, frames) ← ev rhsAst input frames
    match eqVal lhs rhs with
    | none => throw .panic
    | some e =>
      .ok (.raw (.bool (match op with | .equal => e | _ => !e)), frames)
  | .and | .or => do
    -- evaluate_boolean_expression (`src/evaluator.rs` lines 435–454):
    -- BOTH sides evaluated before the truthiness coercions — no
    -- short-circuit.
    let (lhs, frames) ← ev lhsAst input frames
    let (rhs, frames) ← ev rhsAst input frames
    let leftBool := lboolean lhs
    let rightBool := lboolean rhs
    .ok (.raw (.bool (match op with
                      | .and => leftBool && rightBool
                      | _ => leftBool || rightBool)), frames)

/-- Legacy `evaluate_ternary`. -/
def levalTernaryWith (ev : LEv) (cond truthy : Node) (falsy : Option Node)
    (input : LValue) (frames : LFrames) : Except LErr (LValue × LFrames) := do
  let (c, frames) ← ev cond input frames
  if lboolean c then ev truthy input frames
  else
    match falsy with
    | some f => ev f input frames
    | none => .ok (.undefined, frames)

/-- Legacy `evaluate` (`src/evaluator.rs` lines 217–246): dispatch,
then the sequence collapse — an `is_seq` array of length 0 becomes
Undefined and of length 1 becomes its sole element, with no singleton
or keep-array consideration. -/
def levaluate : Nat → Node → LValue → LFrames → Except LErr (LValue × LFrames)
  | 0, _, _, _ => throw .outOfFuel
  | fuel + 1, node, input, frames => do
    let ev : LEv := levaluate fuel
    let (result, frames) ←
      (match node with
       | .null => .ok (LValue.raw .null, frames)
       | .bool b => .ok (.raw (.bool b), frames)
       | .num n => .ok (.raw (.number n), frames)
       | .str s => .ok (.raw (.str s), frames)
       | .var name =>
         match frames.lookup name with
         | some j => .ok (LValue.raw j, frames)
         | none => .ok (.undefined, frames)
       | .block exprs => levalBlockWith ev exprs input frames
       | .unaryMinus e => levalUnaryMinusWith ev e input frames
       | .unaryArray items keepArray => levalArrayCtorWith ev items keepArray input frames
       | .binary op lhs rhs => levalBinaryWith ev op lhs rhs input frames
       | .ternary c t f => levalTernaryWith ev c t f input frames
       : Except LErr (LValue × LFrames))
    if result.is_seq then
      if result.len == 0 then .ok (.undefined, frames)
      else if result.len == 1 then .ok (result.elems.getD 0 .undefined, frames)
      else .ok (result, frames)
    else .ok (result, frames)

end Legacy

namespace Pooled

/-! ## Equation lemmas for the pooled evaluator -/

/-- One step of `evaluate` on a binary node: dispatch to
`evalBinaryWith`, then collapse. -/
theorem evaluate_succ_binary (fuel : Nat) (op : BinaryOp) (l r : Ast) (ka ca : Bool)
    (input : PValue) (fr : Frames) :
    evaluate (fuel + 1) (Ast.mk (.binary op l r) ka ca) input fr =
      Except.bind (evalBinaryWith (evaluate fuel) op l r input fr)
        (fun x => .ok (collapseSequence ka x.1, x.2)) := by
  rfl

/-- A number literal evaluates to itself under any frame and input. -/
theorem evaluate_number (fuel : Nat) (n : ℚ) (input : PValue) (fr : Frames) :
    evaluate (fuel + 1) (mkNode (.number n)) input fr = .ok (.number n, fr) := by
  rfl

/-- Collapsing never changes a boolean. -/
theorem collapse_bool (ka b : Bool) : collapseSequence ka (.bool b) = .bool b := by
  rfl

/-- A value distinct from `.undefined` has `is_undefined = false`. -/
theorem is_undefined_eq_false {v : PValue} (h : v ≠ .undefined) :
    v.is_undefined = false := by
  cases v <;> simp_all [PValue.is_undefined]

end Pooled

section Claims

open Pooled Legacy

/-! ## The claims -/

/-- C3: the final collapsing step on an array carrying SEQUENCE —
with SINGLETON added first when the node's `keep_array` flag is set —
returns Undefined when empty, the sole element when length 1 without
SINGLETON, and the (flag-adjusted) array unchanged otherwise. -/
theorem c3_sequence_collapse (elems : List PValue) (flags : ArrayFlags) (keepArr : Bool)
    (hseq : flags.sequence = true) :
    (elems = [] → collapseSequence keepArr (.array elems flags) = .undefined)
    ∧ (∀ x, elems = [x] →
        (if keepArr then { flags with singleton := true } else flags).singleton = false →
        collapseSequence keepArr (.array elems flags) = x)
    ∧ (∀ x, elems = [x] →
        (if keepArr then { flags with singleton := true } else flags).singleton = true →
        collapseSequence keepArr (.array elems flags) =
          .array [x] (if keepArr then { flags with singleton := true } else flags))
    ∧ (2 ≤ elems.length →
        collapseSequence keepArr (.array elems flags) =
          .array elems (if keepArr then { flags with singleton := true } else flags)) := by
  refine ⟨?_, ?_, ?_, ?_⟩
  · rintro rfl
    cases keepArr <;>
      simp [collapseSequence, PValue.hasSequence, PValue.get_flags, hseq,
        PValue.addSingleton, PValue.is_empty]
  · rintro x rfl hsing
    cases keepArr <;> simp_all [collapseSequence, PValue.hasSequence, PValue.get_flags,
        hseq, PValue.addSingleton, PValue.is_empty, PValue.len, PValue.hasSingleton,
        PValue.get_member]
  · rintro x rfl hsing
    cases keepArr <;> simp_all [collapseSequence, PValue.hasSequence, PValue.get_flags,
        hseq, PValue.addSingleton, PValue.is_empty, PValue.len, PValue.hasSingleton,
        PValue.get_member]
  · intro hlen
    have hne : elems ≠ [] := by
      intro h; subst h; simp at hlen
    have hlen1 : elems.length ≠ 1 := by omega
    cases keepArr <;>
      simp_all [collapseSequence, PValue.hasSequence, PValue.get_flags, hseq,
        PValue.addSingleton, PValue.is_empty, PValue.len, PValue.hasSingleton,
        List.isEmpty_iff]

/-- C3 witness: a two-element SEQUENCE passes through unchanged when
`keep_array` is clear, and `[null]` with SEQUENCE and `keep_array` set
keeps its array form. -/
theorem c3_sequence_collapse_witness :
    collapseSequence false (.array [.null, .null] ArrayFlags.seq)
      = .array [.null, .null] ArrayFlags.seq
    ∧ collapseSequence true (.array [.null] ArrayFlags.seq)
      = .array [.null] { sequence := true, singleton := true } := by
  constructor
  · exact (c3_sequence_collapse [.null, .null] ArrayFlags.seq false rfl).2.2.2 (by decide)
  · exact (c3_sequence_collapse [.null] ArrayFlags.seq true rfl).2.2.1 .null rfl rfl

/-- C9: during group collection, a key already present in the
accumulated groups raises D1009 when its group was created by a
different pair index, and otherwise (same index) appends the current
member to the group's data via the `append` built-in. -/
theorem c9_group_duplicate_key (groups : List (String × Group)) (key : String)
    (index : Nat) (item : PValue) (g : Group)
    (hfound : lookupGroup groups key = some g) :
    (g.index ≠ index →
      groupInsert groups key index item = .error (.d1009MultipleKeys key))
    ∧ (g.index = index →
      groupInsert groups key index item =
        .ok (updateGroup groups key { g with data := fn_append g.data item })) := by
  constructor
  · intro hne
    simp [groupInsert, hfound, hne, throw, throwThe, MonadExceptOf.throw]
  · intro heq
    simp [groupInsert, hfound, heq]

/-- C9 witness: with `"k"` grouped at pair index 0 holding data 1,
inserting `"k"` from pair index 1 raises D1009, and inserting `"k"`
from pair index 0 appends the member via `fn_append`. -/
theorem c9_group_duplicate_key_witness :
    groupInsert [("k", ⟨.number 1, 0⟩)] "k" 1 (.number 2)
      = .error (.d1009MultipleKeys "k")
    ∧ groupInsert [("k", ⟨.number 1, 0⟩)] "k" 0 (.number 2)
      = .ok [("k", ⟨fn_append (.number 1) (.number 2), 0⟩)] := by
  constructor
  · exact (c9_group_duplicate_key [("k", ⟨.number 1, 0⟩)] "k" 1 (.number 2)
      ⟨.number 1, 0⟩ rfl).1 (by decide)
  · exact (c9_group_duplicate_key [("k", ⟨.number 1, 0⟩)] "k" 0 (.number 2)
      ⟨.number 1, 0⟩ rfl).2 rfl

/-- C1 (amended): in the pooled evaluator, `=` and `!=` yield `false`
whenever either operand evaluates to Undefined, and `v = v` yields
`true` exactly when `v` is not Undefined (for the well-formed values
the evaluator stores).  The legacy evaluator instead applies structural
`PartialEq` directly, under which Undefined equals Undefined
(see the counterexample). -/
theorem c1_pooled_undefined_equality :
    (∀ (fuel : Nat) (op : BinaryOp) (lhsAst rhsAst : Ast) (input : PValue)
       (fr fr1 fr2 : Frames) (u r : PValue),
       (op = .equal ∨ op = .notEqual) →
       evaluate fuel lhsAst input fr = .ok (u, fr1) →
       evaluate fuel rhsAst input fr1 = .ok (r, fr2) →
       (u.is_undefined || r.is_undefined) = true →
       evaluate (fuel + 1) (mkNode (.binary op lhsAst rhsAst)) input fr
         = .ok (.bool false, fr2))
    ∧ (∀ (fuel : Nat) (lhsAst rhsAst : Ast) (input : PValue)
         (fr fr1 fr2 : Frames) (v : PValue),
         WellFormed v →
         evaluate fuel lhsAst input fr = .ok (v, fr1) →
         evaluate fuel rhsAst input fr1 = .ok (v, fr2) →
         (evaluate (fuel + 1) (mkNode (.binary .equal lhsAst rhsAst)) input fr
            = .ok (.bool true, fr2) ↔ v ≠ .undefined)) := by
  constructor
  · intro fuel op lhsAst rhsAst input fr fr1 fr2 u r hop h1 h2 hundef
    rw [show mkNode (.binary op lhsAst rhsAst)
          = Ast.mk (.binary op lhsAst rhsAst) false false from rfl,
        evaluate_succ_binary]
    have hcond : u.is_undefined = true ∨ r.is_undefined = true :=
      Bool.or_eq_true _ _ |>.mp hundef
    rcases hop with rfl | rfl <;>
      simp [evalBinaryWith, h1, h2, hcond, Bind.bind, Except.bind, collapse_bool]
  · intro fuel lhsAst rhsAst input fr fr1 fr2 v hWF h1 h2
    rw [show mkNode (.binary .equal lhsAst rhsAst)
          = Ast.mk (.binary .equal lhsAst rhsAst) false false from rfl,
        evaluate_succ_binary]
    by_cases hv : v = .undefined
    · subst hv
      simp [evalBinaryWith, h1, h2, Bind.bind, Except.bind, collapse_bool,
        PValue.is_undefined]
    · have hfalse := is_undefined_eq_false hv
      have hrefl := valueEq_refl v hWF
      simp [evalBinaryWith, h1, h2, Bind.bind, Except.bind, collapse_bool,
        hfalse, hrefl, hv]

/-- C1 witness: `$x = 5` with `$x` unbound yields `false`, and
`5 = 5` yields `true`. -/
theorem c1_pooled_undefined_equality_witness :
    evaluate 2 (mkNode (.binary .equal (mkNode (.var "x")) (mkNode (.number 5))))
      .undefined [[]] = .ok (.bool false, [[]])
    ∧ evaluate 2 (mkNode (.binary .equal (mkNode (.number 5)) (mkNode (.number 5))))
        .undefined [[]] = .ok (.bool true, [[]]) := by
  constructor
  · exact c1_pooled_undefined_equality.1 1 .equal (mkNode (.var "x"))
      (mkNode (.number 5)) .undefined [[]] [[]] [[]] .undefined (.number 5)
      (Or.inl rfl) rfl rfl rfl
  · exact (c1_pooled_undefined_equality.2 1 (mkNode (.number 5)) (mkNode (.number 5))
      .undefined [[]] [[]] [[]] (.number 5) trivial rfl rfl).mpr
      (fun h => PValue.noConfusion h)

/-- C2 (amended): the pooled evaluator short-circuits — when the left
operand of `and` evaluates falsy the whole expression is `false`, and
when the left operand of `or` evaluates truthy it is `true`, for every
right-hand expression whatsoever (in particular one whose evaluation
would raise an error).  The legacy evaluator instead evaluates both
operands eagerly and propagates errors of the unused side (see the
counterexample). -/
theorem c2_pooled_short_circuit :
    (∀ (fuel : Nat) (lhsAst rhsAst : Ast) (input : PValue) (fr fr1 : Frames) (v : PValue),
       evaluate fuel lhsAst input fr = .ok (v, fr1) →
       is_truthy v = false →
       evaluate (fuel + 1) (mkNode (.binary .and lhsAst rhsAst)) input fr
         = .ok (.bool false, fr1))
    ∧ (∀ (fuel : Nat) (lhsAst rhsAst : Ast) (input : PValue) (fr fr1 : Frames) (v : PValue),
       evaluate fuel lhsAst input fr = .ok (v, fr1) →
       is_truthy v = true →
       evaluate (fuel + 1) (mkNode (.binary .or lhsAst rhsAst)) input fr
         = .ok (.bool true, fr1)) := by
  constructor
  · intro fuel lhsAst rhsAst input fr fr1 v h1 ht
    rw [show mkNode (.binary .and lhsAst rhsAst)
          = Ast.mk (.binary .and lhsAst rhsAst) false false from rfl,
        evaluate_succ_binary]
    simp [evalBinaryWith, h1, ht, Bind.bind, Except.bind, collapse_bool]
  · intro fuel lhsAst rhsAst input fr fr1 v h1 ht
    rw [show mkNode (.binary .or lhsAst rhsAst)
          = Ast.mk (.binary .or lhsAst rhsAst) false false from rfl,
        evaluate_succ_binary]
    simp [evalBinaryWith, h1, ht, Bind.bind, Except.bind, collapse_bool]

/-- C2 witness: with a right-hand side whose evaluation raises T2001,
`false and E` is `false` and `true or E` is `true` — no error. -/
theorem c2_pooled_short_circuit_witness :
    evaluate 2 (mkNode (.binary .and (mkNode (.bool false))
        (mkNode (.binary .add (mkNode (.string "a")) (mkNode (.number 1))))))
      .undefined [[]] = .ok (.bool false, [[]])
    ∧ evaluate 2 (mkNode (.binary .or (mkNode (.bool true))
        (mkNode (.binary .add (mkNode (.string "a")) (mkNode (.number 1))))))
        .undefined [[]] = .ok (.bool true, [[]]) := by
  constructor
  · exact c2_pooled_short_circuit.1 1 (mkNode (.bool false))
      (mkNode (.binary .add (mkNode (.string "a")) (mkNode (.number 1))))
      .undefined [[]] [[]] (.bool false) rfl rfl
  · exact c2_pooled_short_circuit.2 1 (mkNode (.bool true))
      (mkNode (.binary .add (mkNode (.string "a")) (mkNode (.number 1))))
      .undefined [[]] [[]] (.bool true) rfl rfl

/-- C4 (amended): in the pooled evaluator a bind with a Var left-hand
side evaluates its right-hand side exactly once, binds the value into
the current frame under the name, and yields that value (which is
already a collapse fixpoint coming out of `evaluate`, so the node's
final collapse leaves it unchanged).  The legacy evaluator binds but
always yields Undefined (see the counterexample). -/
theorem c4_pooled_bind :
    ∀ (fuel : Nat) (name : String) (rhsAst : Ast) (input : PValue)
      (fr fr1 : Frames) (v : PValue),
      evaluate fuel rhsAst input fr = .ok (v, fr1) →
      collapseSequence false v = v →
      evaluate (fuel + 1) (mkNode (.binary .bind (mkNode (.var name)) rhsAst)) input fr
        = .ok (v, fr1.bind name v) := by
  intro fuel name rhsAst input fr fr1 v h1 hcol
  rw [show mkNode (.binary .bind (mkNode (.var name)) rhsAst)
        = Ast.mk (.binary .bind (mkNode (.var name)) rhsAst) false false from rfl,
      evaluate_succ_binary]
  simp [evalBinaryWith, h1, Bind.bind, Except.bind, Ast.kind, mkNode, hcol]

/-- C4 witness: `$x := 5` yields 5 and binds `x` to 5 in the current
frame. -/
theorem c4_pooled_bind_witness :
    evaluate 2 (mkNode (.binary .bind (mkNode (.var "x")) (mkNode (.number 5))))
      .undefined [[]] = .ok (.number 5, [[("x", .number 5)]]) := by
  exact c4_pooled_bind 1 "x" (mkNode (.number 5)) .undefined [[]] [[]] (.number 5) rfl rfl

/-- C7 (amended): a range with equal non-negative integer endpoints
produces the one-element SEQUENCE `[n]`, which the final collapsing
step collapses to the scalar `n` when the node has no trailing `[]` —
so `3..3` evaluates to `3`, not `[3]`; the one-element array form
survives only when the node's `keep_array` flag (trailing `[]`) is
set. -/
theorem c7_range_equal_endpoints_collapse (fuel : Nat) (n : ℚ)
    (hden : n.den = 1) (hnum : 0 ≤ n.num) (input : PValue) (fr : Frames) :
    evaluate (fuel + 2)
        (mkNode (.binary .range (mkNode (.number n)) (mkNode (.number n)))) input fr
      = .ok (.number n, fr)
    ∧ evaluate (fuel + 2)
        (Ast.mk (.binary .range (mkNode (.number n)) (mkNode (.number n))) true false)
        input fr
      = .ok (.array [.number n] { sequence := true, singleton := true }, fr) := by
  have hcast : ((n.num.toNat : ℕ) : ℚ) = n := by
    calc ((n.num.toNat : ℕ) : ℚ) = ((n.num.toNat : ℤ) : ℚ) := by push_cast; ring
    _ = (n.num : ℚ) := by rw [Int.toNat_of_nonneg hnum]
    _ = n := Rat.coe_int_num_of_den_eq_one hden
  constructor
  · rw [show mkNode (.binary .range (mkNode (.number n)) (mkNode (.number n)))
          = Ast.mk (.binary .range (mkNode (.number n)) (mkNode (.number n))) false false
          from rfl,
        show fuel + 2 = (fuel + 1) + 1 from rfl, evaluate_succ_binary]
    simp [evalBinaryWith, evaluate_number, Bind.bind, Except.bind,
      PValue.is_undefined, PValue.is_integer, hden, PValue.as_usize,
      collapseSequence, PValue.hasSequence, PValue.get_flags, ArrayFlags.seq,
      PValue.is_empty, PValue.len, PValue.hasSingleton, PValue.get_member,
      PValue.addSingleton, List.range_succ, hcast]
  · rw [show fuel + 2 = (fuel + 1) + 1 from rfl, evaluate_succ_binary]
    simp [evalBinaryWith, evaluate_number, Bind.bind, Except.bind,
      PValue.is_undefined, PValue.is_integer, hden, PValue.as_usize,
      collapseSequence, PValue.hasSequence, PValue.get_flags, ArrayFlags.seq,
      PValue.is_empty, PValue.len, PValue.hasSingleton, PValue.get_member,
      PValue.addSingleton, List.range_succ, hcast]

/-- C7 witness: `3..3` evaluates to the scalar 3, and with `keep_array`
set it evaluates to the singleton-flagged `[3]`. -/
theorem c7_range_equal_endpoints_collapse_witness :
    evaluate 3 (mkNode (.binary .range (mkNode (.number 3)) (mkNode (.number 3))))
      .undefined [[]] = .ok (.number 3, [[]])
    ∧ evaluate 3
        (Ast.mk (.binary .range (mkNode (.number 3)) (mkNode (.number 3))) true false)
        .undefined [[]]
      = .ok (.array [.number 3] { sequence := true, singleton := true }, [[]]) := by
  exact c7_range_equal_endpoints_collapse 1 3 rfl (by decide) .undefined [[]]

/-- C8 (amended): the built-in `boolean` maps Undefined to Undefined
(not false); on every other (well-formed) value it agrees with the
`is_truthy` coercion used by `and`/`or`/ternary — and that coercion
itself does treat Undefined as false. -/
theorem c8_boolean_vs_truthiness :
    fn_boolean .undefined = .ok .undefined
    ∧ is_truthy .undefined = false
    ∧ (∀ v : PValue, v ≠ .undefined → WellFormed v →
        fn_boolean v = .ok (.bool (is_truthy v))) := by
  refine ⟨rfl, rfl, ?_⟩
  intro v hv hwf
  exact fn_boolean_eq_is_truthy v hv (wf_members v hwf)

/-- C8 witness: on Null — a defined value — `boolean` returns `false`,
agreeing with `is_truthy`. -/
theorem c8_boolean_vs_truthiness_witness :
    fn_boolean PValue.null = .ok (.bool false) := by
  simpa [is_truthy] using
    c8_boolean_vs_truthiness.2.2 .null (fun h => PValue.noConfusion h) trivial

/-- C5: over-cap ranges.  The claim says a range whose size exceeds
10,000,000 returns the error D2014 out of evaluate; the source's
over-cap branch is `// TODO: D2014` followed by `unreachable!()`, so
`1..10000001` (size 10,000,001) aborts with a panic instead of
returning an error value. -/
theorem c5_range_over_cap_panics :
    Pooled.evaluate 3
      (mkNode (.binary .range (mkNode (.number 1)) (mkNode (.number 10000001))))
      .undefined [[]]
      = .error .panicUnreachable := by
  rfl

/-- C6: the legacy `PartialEq for Value` compares array elements only at
indices `0 .. len - 1`, skipping the final pair, so the user-visible
`[1,2] = [1,3]` evaluates to `true` although the last elements differ —
both directly through the `PartialEq` embedding and end-to-end through
`evaluate_equality_expression`. -/
theorem c6_array_eq_skips_last :
    eqVal (.array [.raw (.number 1), .raw (.number 2)] false false)
          (.array [.raw (.number 1), .raw (.number 3)] false false) = some true
    ∧ Legacy.levaluate 8
        (.binary .equal (.unaryArray [.num 1, .num 2] false)
                        (.unaryArray [.num 1, .num 3] false))
        .undefined [[]]
        = .ok (.raw (.bool true), [[]]) := by
  exact ⟨rfl, rfl⟩

/-- C1 (counterexample): in the legacy evaluator, `=` and `!=` carry no
Undefined guard; `$x = $y` with both variables unbound evaluates to
`true` (PartialEq makes Undefined equal Undefined) and `$x != 5` with
`$x` unbound evaluates to `true`, where the claim requires `false` in
both cases. -/
theorem c1_legacy_undefined_equal_true :
    Legacy.levaluate 3 (.binary .equal (.var "x") (.var "y")) .undefined [[]]
      = .ok (.raw (.bool true), [[]])
    ∧ Legacy.levaluate 3 (.binary .notEqual (.var "x") (.num 5)) .undefined [[]]
      = .ok (.raw (.bool true), [[]]) := by
  exact ⟨rfl, rfl⟩

/-- C2 (counterexample): the legacy `evaluate_boolean_expression`
evaluates both operands eagerly, so `false and ("a" + 1)` and
`true or ("a" + 1)` propagate the right-hand side's T2001 instead of
short-circuiting to a boolean. -/
theorem c2_legacy_eager_boolean_error :
    Legacy.levaluate 3
      (.binary .and (.bool false) (.binary .add (.str "a") (.num 1)))
      .undefined [[]] = .error .t2001
    ∧ Legacy.levaluate 3
        (.binary .or (.bool true) (.binary .add (.str "a") (.num 1)))
        .undefined [[]] = .error .t2001 := by
  exact ⟨rfl, rfl⟩

/-- C4 (counterexample): the legacy `evaluate_bind_expression` yields
Undefined, not the bound value: `$x := 5` evaluates to Undefined (with
5 bound under `x`), where the claim requires the expression's value to
be 5. -/
theorem c4_legacy_bind_returns_undefined :
    Legacy.levaluate 3 (.binary .bind (.var "x") (.num 5)) .undefined [[]]
      = .ok (.undefined, [[("x", .number 5)]]) := by
  rfl

/-- C7 (counterexample): in the pooled evaluator `3..3` (no trailing
`[]`) evaluates to the scalar 3, not to the one-element array `[3]`:
the range builds the SEQUENCE `[3]` and the final collapsing step
collapses it to its sole element. -/
theorem c7_range_equal_endpoints_scalar :
    Pooled.evaluate 3
      (mkNode (.binary .range (mkNode (.number 3)) (mkNode (.number 3))))
      .undefined [[]]
      = .ok (.number 3, [[]]) := by
  rfl

/-- C8 (counterexample): the built-in `boolean` applied to Undefined
returns Undefined, not the boolean `false` the claim states. -/
theorem c8_boolean_undefined_is_undefined :
    fn_boolean .undefined = .ok .undefined
    ∧ (Except.ok PValue.undefined ≠ (.ok (.bool false) : Except EvalError PValue)) := by
  refine ⟨rfl, ?_⟩
  intro h
  injection h with h'
  exact PValue.noConfusion h'

/-- C10: `fn_count` never raises an error and returns 0 for Undefined,
the element count for any array regardless of flags, and 1 for every
other value. -/
theorem c10_count_total :
    ∀ v : PValue, fn_count v = .ok (.number (countSpec v)) := by
  intro v
  cases v <;>
    simp [fn_count, countSpec, PValue.is_undefined, PValue.is_array, PValue.len]

end Claims

